import Mathlib

/-!
Verification of the Pearl online-learning harness.

Shallow embedding of `pearl/online_learning/online_learning.py` and
`policy_learners/exploration_modules/sequential_decision_making/deep_exploration.py`.

The agent and the environment are external collaborators, given by interface
records of pure state transformers.  Every call the harness makes into a
collaborator is recorded in an event log, so that frame properties ("learn is
never invoked", "reset is called exactly once", ...) become statements about
that log.  The unbounded `while not done` loop is embedded with explicit fuel,
returning `none` when the fuel runs out before the episode terminates.
-/

/-- The step result returned by `env.step(action)`: a reward and a `done` flag. -/
structure ActionResult where
  reward : Int
  done : Bool
deriving DecidableEq

/-- Interface of the environment collaborator (spec section 6):
`reset() -> (observation, action_space)` and `step(action) -> step_result`,
embedded as pure transformers of an environment state `E`. -/
structure EnvI (E Obs ASp Act : Type) where
  reset : E → E × Obs × ASp
  step : E → Act → E × ActionResult

/-- Interface of the agent collaborator (spec section 6): `reset`, `act`,
`observe`, `learn`, plus the read-only configured learning batch size
(`agent.policy_learner.batch_size` in the source), embedded as pure
transformers of an agent state `A`.  `learn` takes the optional `batch_size`
override and the `dynamic_size` flag. -/
structure AgentI (A Obs ASp Act : Type) where
  reset : A → Obs → ASp → A
  act : A → Bool → A × Act
  observe : A → ActionResult → A
  learn : A → Option Nat → Bool → A
  batch_size : A → Nat

/-- One collaborator call made by the harness, recorded in chronological order.
`agentAct` records the `exploit` flag passed; `agentLearn` records the optional
`batch_size` override and the `dynamic_size` flag passed. -/
inductive Event (Obs ASp Act : Type) where
  | agentReset (obs : Obs) (asp : ASp)
  | agentAct (exploit : Bool) (action : Act)
  | envStep (action : Act) (result : ActionResult)
  | agentObserve (result : ActionResult)
  | agentLearn (batch_size : Option Nat) (dynamic_size : Bool)
deriving DecidableEq

/-- Is the event an `agent.learn` call? -/
def Event.isLearn {Obs ASp Act : Type} : Event Obs ASp Act → Bool
  | .agentLearn _ _ => true
  | _ => false

/-- Is the event an `agent.reset` call? -/
def Event.isReset {Obs ASp Act : Type} : Event Obs ASp Act → Bool
  | .agentReset _ _ => true
  | _ => false

/-- Result of one episode: the accumulated return `g`, the final environment
and agent states, the final value of the source's `step` counter (which starts
at 1 and is incremented once per loop iteration, so `step - 1` loop iterations
were run), and the log of collaborator calls. -/
structure LoopResult (E A Obs ASp Act : Type) where
  g : Int
  env : E
  agent : A
  step : Nat
  log : List (Event Obs ASp Act)

/-- The body of `episode_return`'s `while not done` loop
(`online_learning.py` lines 120-128), with explicit fuel.  Each iteration:
`action = agent.act(exploit)`, `action_result = env.step(action)`,
`g += reward`, `agent.observe(action_result)`, and, if
`learn and not learn_after_episode`, `agent.learn(dynamic_size=dynamic_size)`;
then `done = action_result.done`, `step += 1`, and the loop exits when `done`. -/
def episodeLoop {E A Obs ASp Act : Type}
    (agent : AgentI A Obs ASp Act) (env : EnvI E Obs ASp Act)
    (learn exploit learn_after_episode dynamic_size : Bool) :
    Nat → E → A → Int → Nat → Option (LoopResult E A Obs ASp Act)
  | 0, _, _, _, _ => none
  | fuel + 1, e, a, g, step =>
    let acted := agent.act a exploit
    let stepped := env.step e acted.2
    let g1 := g + stepped.2.reward
    let a2 := agent.observe acted.1 stepped.2
    let a3 := if learn && !learn_after_episode then agent.learn a2 none dynamic_size else a2
    let evs : List (Event Obs ASp Act) :=
      Event.agentAct exploit acted.2 :: Event.envStep acted.2 stepped.2 ::
        Event.agentObserve stepped.2 ::
        (if learn && !learn_after_episode then [Event.agentLearn none dynamic_size] else [])
    if stepped.2.done then
      some ⟨g1, stepped.1, a3, step + 1, evs⟩
    else
      match episodeLoop agent env learn exploit learn_after_episode dynamic_size
          fuel stepped.1 a3 g1 (step + 1) with
      | none => none
      | some r => some ⟨r.g, r.env, r.agent, r.step, evs ++ r.log⟩

/-- Embedding of `episode_return` (`online_learning.py` lines 93-137):
`g = 0`; `observation, action_space = env.reset()`;
`agent.reset(observation, action_space)`; `done = False`; `step = 1`;
the while loop; and finally, if `learn and learn_after_episode`,
one `agent.learn` call, with `batch_size=step - 1` when
`agent.policy_learner.batch_size > step - 1` and without a batch-size
override otherwise, `dynamic_size` passed through in both cases. -/
def episode_return {E A Obs ASp Act : Type}
    (agent : AgentI A Obs ASp Act) (env : EnvI E Obs ASp Act)
    (fuel : Nat) (e0 : E) (a0 : A)
    (learn exploit learn_after_episode dynamic_size : Bool) :
    Option (LoopResult E A Obs ASp Act) :=
  let r0 := env.reset e0
  let a1 := agent.reset a0 r0.2.1 r0.2.2
  match episodeLoop agent env learn exploit learn_after_episode dynamic_size
      fuel r0.1 a1 0 1 with
  | none => none
  | some r =>
    let log0 := Event.agentReset r0.2.1 r0.2.2 :: r.log
    if learn && learn_after_episode then
      if agent.batch_size r.agent > r.step - 1 then
        some ⟨r.g, r.env, agent.learn r.agent (some (r.step - 1)) dynamic_size, r.step,
          log0 ++ [Event.agentLearn (some (r.step - 1)) dynamic_size]⟩
      else
        some ⟨r.g, r.env, agent.learn r.agent none dynamic_size, r.step,
          log0 ++ [Event.agentLearn none dynamic_size]⟩
    else
      some ⟨r.g, r.env, r.agent, r.step, log0⟩

/-- A concrete test environment: the state is a step counter reset to `0`;
every step yields reward `r` and sets `done` exactly when the counter
reaches `k`. -/
def cEnv (k : Nat) (r : Int) : EnvI Nat Nat Nat Nat where
  reset := fun _ => (0, 0, 0)
  step := fun e _ => (e + 1, ⟨r, decide (e + 1 = k)⟩)

/-- A concrete stateless test agent with configured batch size `bs`. -/
def cAgent (bs : Nat) : AgentI Unit Nat Nat Nat where
  reset := fun _ _ _ => ()
  act := fun _ _ => ((), 0)
  observe := fun _ _ => ()
  learn := fun _ _ _ => ()
  batch_size := fun _ => bs

example :
    (episode_return (cAgent 5) (cEnv 3 2) 3 0 () true true false false).map
      (fun x => x.g) = some 6 := by rfl

example :
    (episode_return (cAgent 5) (cEnv 3 2) 2 0 () true true false false) = none := by rfl

/-- Result of a run of `online_learning`: final environment and agent states,
the final sink state `sink`, the list `sinkArgs` of arguments passed to the
`process_return` callback in call order, and the concatenated per-episode
event logs. -/
structure OLResult (E A S Obs ASp Act : Type) where
  env : E
  agent : A
  sink : S
  sinkArgs : List Int
  log : List (Event Obs ASp Act)

/-- Embedding of `online_learning` (`online_learning.py` lines 62-90):
`for _ in range(number_of_episodes)`, run
`episode_return(agent, env, learn=True, exploit=False, learn_after_episode,
dynamic_size)` and pass the resulting return to `process_return`.  The sink
callback is embedded as a transformer of a sink state `S`, and every call to
it is also recorded in `sinkArgs`. -/
def online_learning {E A S Obs ASp Act : Type}
    (agent : AgentI A Obs ASp Act) (env : EnvI E Obs ASp Act)
    (fuel : Nat) (e : E) (a : A) (number_of_episodes : Nat)
    (learn_after_episode : Bool) (process_return : S → Int → S) (s : S)
    (dynamic_size : Bool) : Option (OLResult E A S Obs ASp Act) :=
  match number_of_episodes with
  | 0 => some ⟨e, a, s, [], []⟩
  | n + 1 =>
    match episode_return agent env fuel e a true false learn_after_episode dynamic_size with
    | none => none
    | some r =>
      match online_learning agent env fuel r.env r.agent n learn_after_episode
          process_return (process_return s r.g) dynamic_size with
      | none => none
      | some rest =>
        some ⟨rest.env, rest.agent, rest.sink, r.g :: rest.sinkArgs, r.log ++ rest.log⟩

/-- Embedding of `online_learning_returns` (`online_learning.py` lines 43-59):
run `online_learning` with a sink that appends each return to a list that
starts empty, and return the final list. -/
def online_learning_returns {E A Obs ASp Act : Type}
    (agent : AgentI A Obs ASp Act) (env : EnvI E Obs ASp Act)
    (fuel : Nat) (e : E) (a : A) (number_of_episodes : Nat)
    (learn_after_episode : Bool) (dynamic_size : Bool) : Option (List Int) :=
  match online_learning agent env fuel e a number_of_episodes learn_after_episode
      (fun acc g => acc ++ [g]) ([] : List Int) dynamic_size with
  | none => none
  | some r => some r.sink

/-- Following the spec's words ("for each of `number_of_episodes` iterations
(strictly sequential, no parallelism, no skipping), invoke the Episodic Runner
with the fixed flags" `learn=True`, `exploit=False` "plus the passthrough
flags"): the sequence of episode returns, in episode order, together with the
final environment and agent states.  This is the reference against which
`online_learning`'s sink calls are compared. -/
def spec_episode_returns {E A Obs ASp Act : Type}
    (agent : AgentI A Obs ASp Act) (env : EnvI E Obs ASp Act)
    (fuel : Nat) (learn_after_episode dynamic_size : Bool) :
    Nat → E → A → Option (List Int × E × A)
  | 0, e, a => some ([], e, a)
  | n + 1, e, a =>
    match episode_return agent env fuel e a true false learn_after_episode dynamic_size with
    | none => none
    | some r =>
      match spec_episode_returns agent env fuel learn_after_episode dynamic_size
          n r.env r.agent with
      | none => none
      | some rest => some (r.g :: rest.1, rest.2)

/-- One call into the plotting library, in call order.  `savefig` records the
filename the save was attempted with; whether the file is actually produced on
a failing save is outside the model. -/
inductive PlotEffect where
  | plot (returns : List Int)
  | title (text : String) (fontsize : Nat)
  | xlabel (text : String)
  | ylabel (text : String)
  | savefig (filename : String)
  | close
deriving DecidableEq

/-- Embedding of `online_learning_to_png_graph` (`online_learning.py` lines
11-40): compute `online_learning_returns`, then, only when `filename is not
None`, emit `plt.plot(returns)`, `plt.title(title, fontsize_for(title))` with
`title = f"{str(agent)} on {str(env)}"`, `plt.xlabel("Episode")`,
`plt.ylabel("Return")`, `plt.savefig(filename)` and `plt.close()`.
`agentStr`/`envStr` model `str(agent)`/`str(env)` and `fontsize_for` models
the external `pearl.utils.plots.fontsize_for` helper.  `savefig_ok` models
whether the save succeeds: when it does not, the exception propagates and the
calls after it (here only `plt.close()`) are not made; the second component of
the result is `false` on that path. -/
def online_learning_to_png_graph {E A Obs ASp Act : Type}
    (agent : AgentI A Obs ASp Act) (env : EnvI E Obs ASp Act)
    (fuel : Nat) (e : E) (a : A) (agentStr envStr : String)
    (fontsize_for : String → Nat) (savefig_ok : String → Bool)
    (filename : Option String) (number_of_episodes : Nat)
    (learn_after_episode dynamic_size : Bool) :
    Option (List PlotEffect × Bool) :=
  match online_learning_returns agent env fuel e a number_of_episodes
      learn_after_episode dynamic_size with
  | none => none
  | some returns =>
    match filename with
    | none => some ([], true)
    | some f =>
      let t := agentStr ++ " on " ++ envStr
      let pre := [PlotEffect.plot returns, PlotEffect.title t (fontsize_for t),
        PlotEffect.xlabel "Episode", PlotEffect.ylabel "Return"]
      if savefig_ok f then some (pre ++ [PlotEffect.savefig f, PlotEffect.close], true)
      else some (pre ++ [PlotEffect.savefig f], false)

example :
    online_learning_returns (cAgent 5) (cEnv 1 2) 1 0 () 2 false false = some [2, 2] := by
  rfl

/-- Left fold of `torch.argmax` over the remaining values, carrying the index
of the next value and the best (index, value) pair so far; a later value
replaces the best pair only when strictly greater, so the first occurrence of
the maximum wins, as in `torch.argmax`. -/
def argmaxAux : List Int → Nat → Nat × Int → Nat × Int
  | [], _, best => best
  | x :: xs, i, best => argmaxAux xs (i + 1) (if best.2 < x then (i, x) else best)

/-- Embedding of `torch.argmax(q_values).view((-1)).item()` on a rank-1 tensor:
the index of the first maximal value (0 on an empty list). -/
def argmaxIdx : List Int → Nat
  | [] => 0
  | x :: xs => (argmaxAux xs 1 (0, x)).1

/-- Modelled from the spec: the ensemble value-network collaborator
(`pearl.neural_networks.common.value_networks.EnsembleQValueNetwork`), which
is not part of the sources under verification.  Per the spec it exposes
`get_q_values(state_batch, action_batch, persistent) -> tensor of real` and
`resample_epistemic_index() -> void`; `q member state action` is the Q-value
estimate of ensemble member `member`, `epistemic_index` is the currently
active member, and `index_stream`/`draws` model the randomness source from
which `resample_epistemic_index` draws a fresh member. -/
structure EnsembleQValueNetwork (S : Type) where
  q : Nat → S → Nat → Int
  epistemic_index : Nat
  index_stream : Nat → Nat
  draws : Nat

/-- Modelled from the spec: `get_q_values` evaluates the Q-value of every
(state, action) pair of the batch under the currently selected ensemble
member; called with `persistent=True` it leaves the epistemic index (and all
other network state) unchanged. -/
def EnsembleQValueNetwork.get_q_values {S : Type} (net : EnsembleQValueNetwork S)
    (state_batch : List S) (action_batch : List Nat) (persistent : Bool) :
    EnsembleQValueNetwork S × List Int :=
  (net, (state_batch.zip action_batch).map (fun p => net.q net.epistemic_index p.1 p.2))

/-- Modelled from the spec: `resample_epistemic_index` draws a new ensemble
member from the randomness source and makes it the active member. -/
def EnsembleQValueNetwork.resample_epistemic_index {S : Type}
    (net : EnsembleQValueNetwork S) : EnsembleQValueNetwork S :=
  { net with epistemic_index := net.index_stream net.draws, draws := net.draws + 1 }

/-- The `DeepExploration` exploration module (`deep_exploration.py`): its only
state is the ensemble Q-value network collaborator. -/
structure DeepExploration (S : Type) where
  q_ensemble_network : EnsembleQValueNetwork S

/-- Embedding of `DeepExploration.act` (`deep_exploration.py` lines 40-67):
repeat the subjective state once per action (`torch.repeat_interleave`), pair
it with each action of the discrete space (`F.one_hot(torch.arange(0, n))` —
the one-hot encoding is a representation detail, here actions are their
indices), query `get_q_values` with `persistent=True` under `torch.no_grad()`,
and return `torch.argmax` of the resulting values.  The trailing optional
parameters of the source (`exploit_action`, `values`,
`action_availability_mask`, `representation`) are accepted for interface
uniformity and ignored, as in the source.  The updated module state is
returned alongside the chosen action index. -/
def DeepExploration.act {S : Type} (m : DeepExploration S)
    (subjective_state : S) (action_space_n : Nat)
    (exploit_action : Option Nat := none) (values : Option (List Int) := none)
    (action_availability_mask : Option (List Bool) := none)
    (representation : Option (S → S) := none) :
    DeepExploration S × Nat :=
  let states_repeated := List.replicate action_space_n subjective_state
  let actions := List.range action_space_n
  let qr := m.q_ensemble_network.get_q_values states_repeated actions true
  (⟨qr.1⟩, argmaxIdx qr.2)

/-- Embedding of `DeepExploration.reset` (`deep_exploration.py` lines 69-72):
resample the epistemic index. -/
def DeepExploration.reset {S : Type} (m : DeepExploration S) : DeepExploration S :=
  ⟨m.q_ensemble_network.resample_epistemic_index⟩

/-- A concrete ensemble over state type `Unit` whose member 0 assigns the
given values (by list position) to the actions. -/
def cEnsemble (vals : List Int) : EnsembleQValueNetwork Unit where
  q := fun member _ action => if member = 0 then vals.getD action 0 else 0
  epistemic_index := 0
  index_stream := fun _ => 0
  draws := 0

example : (DeepExploration.act ⟨cEnsemble [1, 0, 5, 2]⟩ () 4).2 = 2 := by rfl
example : (DeepExploration.act ⟨cEnsemble [7, 0, 7, 2]⟩ () 4).2 = 0 := by rfl

/-! ### Lemmas about the episode loop and episode_return -/

/-- When per-step learning is off (`learn and not learn_after_episode` is
false), the loop makes no `agent.learn` call. -/
lemma episodeLoop_no_learn {E A Obs ASp Act : Type}
    (agent : AgentI A Obs ASp Act) (env : EnvI E Obs ASp Act)
    {learn exploit lae ds : Bool} (h : (learn && !lae) = false) :
    ∀ (fuel : Nat) (e : E) (a : A) (g : Int) (step : Nat) r,
      episodeLoop agent env learn exploit lae ds fuel e a g step = some r →
      r.log.filter Event.isLearn = [] := by
  intro fuel
  induction fuel with
  | zero => intro e a g step r hr; simp [episodeLoop] at hr
  | succ n ih =>
    intro e a g step r hr
    simp only [episodeLoop, h, Bool.false_eq_true, if_false] at hr
    split at hr
    · simp only [Option.some.injEq] at hr
      subst hr
      simp [Event.isLearn]
    · split at hr
      · exact absurd hr (by simp)
      · rename_i r' hr'
        simp only [Option.some.injEq] at hr
        subst hr
        simp [List.filter_append, Event.isLearn, ih _ _ _ _ _ hr']

/-- Every `agent.act` event recorded by the loop carries the `exploit` flag
the loop was called with. -/
lemma episodeLoop_act_exploit {E A Obs ASp Act : Type}
    (agent : AgentI A Obs ASp Act) (env : EnvI E Obs ASp Act)
    {learn exploit lae ds : Bool} :
    ∀ (fuel : Nat) (e : E) (a : A) (g : Int) (step : Nat) r,
      episodeLoop agent env learn exploit lae ds fuel e a g step = some r →
      ∀ (b : Bool) (action : Act), Event.agentAct b action ∈ r.log → b = exploit := by
  intro fuel
  induction fuel with
  | zero => intro e a g step r hr; simp [episodeLoop] at hr
  | succ n ih =>
    intro e a g step r hr b action hmem
    simp only [episodeLoop] at hr
    split at hr
    · simp only [Option.some.injEq] at hr
      subst hr
      simp only [List.mem_cons] at hmem
      rcases hmem with h1 | h1 | h1 | h1
      · injection h1 with hb ha
      · cases h1
      · cases h1
      · split at h1 <;> simp at h1
    · split at hr
      · exact absurd hr (by simp)
      · rename_i r' hr'
        simp only [Option.some.injEq] at hr
        subst hr
        simp only [List.mem_append, List.mem_cons] at hmem
        rcases hmem with (h1 | h1 | h1 | h1) | h1
        · injection h1 with hb ha
        · cases h1
        · cases h1
        · split at h1 <;> simp at h1
        · exact ih _ _ _ _ _ hr' b action h1

/-- The loop never records an `agent.reset` event. -/
lemma episodeLoop_no_reset {E A Obs ASp Act : Type}
    (agent : AgentI A Obs ASp Act) (env : EnvI E Obs ASp Act)
    {learn exploit lae ds : Bool} :
    ∀ (fuel : Nat) (e : E) (a : A) (g : Int) (step : Nat) r,
      episodeLoop agent env learn exploit lae ds fuel e a g step = some r →
      r.log.filter Event.isReset = [] := by
  intro fuel
  induction fuel with
  | zero => intro e a g step r hr; simp [episodeLoop] at hr
  | succ n ih =>
    intro e a g step r hr
    simp only [episodeLoop] at hr
    split at hr
    · simp only [Option.some.injEq] at hr
      subst hr
      split <;> simp [Event.isReset]
    · split at hr
      · exact absurd hr (by simp)
      · rename_i r' hr'
        simp only [Option.some.injEq] at hr
        subst hr
        refine List.filter_append _ _ ▸ ?_
        rw [ih _ _ _ _ _ hr']
        split <;> simp [Event.isReset]

/-- In an environment abstracted by a step counter `c` (reset to `0`,
incremented by every step) in which every step yields reward `r` and the
`done` flag is raised exactly when the counter reaches `k`, the loop
terminates within `k - c e` steps and adds `r * (k - c e)` to the running
return, whatever the agent does and whatever the flags are. -/
lemma episodeLoop_const {E A Obs ASp Act : Type}
    (agent : AgentI A Obs ASp Act) (env : EnvI E Obs ASp Act)
    {learn exploit lae ds : Bool} (c : E → Nat) (k : Nat) (r : Int)
    (hstep_c : ∀ e action, c (env.step e action).1 = c e + 1)
    (hreward : ∀ e action, (env.step e action).2.reward = r)
    (hdone : ∀ e action, (env.step e action).2.done = decide (c e + 1 = k)) :
    ∀ (fuel : Nat) (e : E) (a : A) (g : Int) (step : Nat),
      c e < k → k - c e ≤ fuel →
      ∃ res, episodeLoop agent env learn exploit lae ds fuel e a g step = some res ∧
        res.g = g + r * ((k - c e : Nat) : Int) ∧ res.step = step + (k - c e) := by
  intro fuel
  induction fuel with
  | zero => intro e a g step hlt hfuel; omega
  | succ n ih =>
    intro e a g step hlt hfuel
    by_cases hk : c e + 1 = k
    · simp only [episodeLoop]
      rw [hdone, decide_eq_true hk]
      simp only [if_true]
      refine ⟨_, rfl, ?_, ?_⟩
      · show g + (env.step e (agent.act a exploit).2).2.reward = g + r * ((k - c e : Nat) : Int)
        rw [hreward]
        have h1 : k - c e = 1 := by omega
        rw [h1]
        push_cast
        ring
      · show step + 1 = step + (k - c e)
        omega
    · have hlt' : c (env.step e (agent.act a exploit).2).1 < k := by
        rw [hstep_c]; omega
      have hfuel' : k - c (env.step e (agent.act a exploit).2).1 ≤ n := by
        rw [hstep_c]; omega
      obtain ⟨res, hres, hg, hstep⟩ := ih (env.step e (agent.act a exploit).2).1
        (if learn && !lae then
          agent.learn (agent.observe (agent.act a exploit).1
            (env.step e (agent.act a exploit).2).2) none ds
        else agent.observe (agent.act a exploit).1 (env.step e (agent.act a exploit).2).2)
        (g + (env.step e (agent.act a exploit).2).2.reward) (step + 1) hlt' hfuel'
      simp only [episodeLoop]
      rw [hdone, decide_eq_false hk]
      simp only [Bool.false_eq_true, if_false]
      rw [hres]
      refine ⟨_, rfl, ?_, ?_⟩
      · show res.g = g + r * ((k - c e : Nat) : Int)
        rw [hg, hreward, hstep_c]
        have h1 : ((k - c e : Nat) : Int) = ((k - (c e + 1) : Nat) : Int) + 1 := by omega
        rw [h1]
        ring
      · show res.step = step + (k - c e)
        rw [hstep, hstep_c]
        omega

/-- A successful loop run increments the step counter at least once, and its
log begins with one full `act`/`step`/`observe` cycle. -/
lemma episodeLoop_shape {E A Obs ASp Act : Type}
    (agent : AgentI A Obs ASp Act) (env : EnvI E Obs ASp Act)
    {learn exploit lae ds : Bool} :
    ∀ (fuel : Nat) (e : E) (a : A) (g : Int) (step : Nat) r,
      episodeLoop agent env learn exploit lae ds fuel e a g step = some r →
      step + 1 ≤ r.step ∧ ∃ action res rest,
        r.log = Event.agentAct exploit action :: Event.envStep action res ::
          Event.agentObserve res :: rest := by
  intro fuel
  induction fuel with
  | zero => intro e a g step r hr; simp [episodeLoop] at hr
  | succ n ih =>
    intro e a g step r hr
    simp only [episodeLoop] at hr
    split at hr
    · simp only [Option.some.injEq] at hr
      subst hr
      exact ⟨le_refl _, _, _, _, rfl⟩
    · split at hr
      · exact absurd hr (by simp)
      · rename_i r' hr'
        simp only [Option.some.injEq] at hr
        subst hr
        obtain ⟨hstep, -⟩ := ih _ _ _ _ _ hr'
        exact ⟨by show step + 1 ≤ r'.step; omega, _, _, _, rfl⟩


/-- When the loop succeeds, `episode_return` succeeds and preserves the loop's
accumulated return and step counter (the post-episode learning branch changes
only the agent state and the log). -/
lemma episode_return_of_loop {E A Obs ASp Act : Type}
    (agent : AgentI A Obs ASp Act) (env : EnvI E Obs ASp Act)
    {fuel : Nat} {e0 : E} {a0 : A} {learn exploit lae ds : Bool}
    {res : LoopResult E A Obs ASp Act}
    (hres : episodeLoop agent env learn exploit lae ds fuel (env.reset e0).1
      (agent.reset a0 (env.reset e0).2.1 (env.reset e0).2.2) 0 1 = some res) :
    ∃ r', episode_return agent env fuel e0 a0 learn exploit lae ds = some r' ∧
      r'.g = res.g ∧ r'.step = res.step := by
  simp only [episode_return, hres]
  split
  · split
    · exact ⟨_, rfl, rfl, rfl⟩
    · exact ⟨_, rfl, rfl, rfl⟩
  · exact ⟨_, rfl, rfl, rfl⟩

/-- C1: for every environment/agent pair in which each step yields a fixed
reward `r` and every episode terminates after exactly `k ≥ 1` steps (the
environment is abstracted by a step counter `c`), `episode_return` returns
`r * k`, for all values of the `learn`, `exploit` and `learn_after_episode`
(and `dynamic_size`) flags, given enough fuel. -/
theorem episode_return_const_reward {E A Obs ASp Act : Type}
    (agent : AgentI A Obs ASp Act) (env : EnvI E Obs ASp Act)
    (fuel : Nat) (e0 : E) (a0 : A) (learn exploit lae ds : Bool)
    (c : E → Nat) (k : Nat) (r : Int)
    (hk : 1 ≤ k)
    (hc0 : c (env.reset e0).1 = 0)
    (hstep_c : ∀ e action, c (env.step e action).1 = c e + 1)
    (hreward : ∀ e action, (env.step e action).2.reward = r)
    (hdone : ∀ e action, (env.step e action).2.done = decide (c e + 1 = k))
    (hfuel : k ≤ fuel) :
    (episode_return agent env fuel e0 a0 learn exploit lae ds).map (fun x => x.g)
      = some (r * (k : Int)) := by
  obtain ⟨res, hres, hg, -⟩ := episodeLoop_const agent env c k r hstep_c hreward hdone
    fuel (env.reset e0).1 (agent.reset a0 (env.reset e0).2.1 (env.reset e0).2.2) 0 1
    (by rw [hc0]; omega) (by rw [hc0]; omega)
  obtain ⟨r', hr', hg', -⟩ := episode_return_of_loop agent env hres
  rw [hr']
  rw [hc0] at hg
  simp only [Nat.sub_zero, zero_add] at hg
  simp [hg', hg]

/-- C2: with `learn=True` and `learn_after_episode=True`, once the loop
completes with final step counter `res.step` (so `res.step - 1` steps were
taken), `episode_return` makes exactly one `agent.learn` call: with
`batch_size = res.step - 1` when the agent's configured batch size exceeds
`res.step - 1`, and with no batch-size override otherwise; `dynamic_size` is
passed through in both cases. -/
theorem episode_return_learn_after_episode_batch {E A Obs ASp Act : Type}
    (agent : AgentI A Obs ASp Act) (env : EnvI E Obs ASp Act)
    (fuel : Nat) (e0 : E) (a0 : A) (exploit ds : Bool)
    (res : LoopResult E A Obs ASp Act)
    (hres : episodeLoop agent env true exploit true ds fuel (env.reset e0).1
      (agent.reset a0 (env.reset e0).2.1 (env.reset e0).2.2) 0 1 = some res) :
    ∃ r', episode_return agent env fuel e0 a0 true exploit true ds = some r' ∧
      r'.g = res.g ∧ r'.step = res.step ∧
      r'.log.filter Event.isLearn =
        [Event.agentLearn
          (if agent.batch_size res.agent > res.step - 1
            then some (res.step - 1) else none) ds] := by
  have hloop : res.log.filter Event.isLearn = [] :=
    episodeLoop_no_learn agent env (by simp) fuel _ _ _ _ res hres
  simp only [episode_return, hres, Bool.and_self, if_true]
  by_cases hbs : agent.batch_size res.agent > res.step - 1
  · simp only [if_pos hbs]
    refine ⟨_, rfl, rfl, rfl, ?_⟩
    simp [List.filter_append, List.filter_cons, Event.isLearn, hloop]
  · simp only [if_neg hbs]
    refine ⟨_, rfl, rfl, rfl, ?_⟩
    simp [List.filter_append, List.filter_cons, Event.isLearn, hloop]

/-- C6: every successful `episode_return` run calls agent `reset` exactly
once, its log starts with the reset followed by a full `act`/`step`/`observe`
cycle (the cycle precedes the termination check), and the final step counter
is at least 2, i.e. at least one step was taken. -/
theorem episode_return_reset_once_cycle {E A Obs ASp Act : Type}
    (agent : AgentI A Obs ASp Act) (env : EnvI E Obs ASp Act)
    (fuel : Nat) (e0 : E) (a0 : A) (learn exploit lae ds : Bool)
    (r : LoopResult E A Obs ASp Act)
    (h : episode_return agent env fuel e0 a0 learn exploit lae ds = some r) :
    (r.log.filter Event.isReset).length = 1 ∧ 2 ≤ r.step ∧
      ∃ obs asp action res rest,
        r.log = Event.agentReset obs asp :: Event.agentAct exploit action ::
          Event.envStep action res :: Event.agentObserve res :: rest := by
  simp only [episode_return] at h
  split at h
  · exact absurd h (by simp)
  · rename_i lres hres
    obtain ⟨hstep, action, ares, rest, hlog⟩ := episodeLoop_shape agent env _ _ _ _ _ _ hres
    have hnores : lres.log.filter Event.isReset = [] :=
      episodeLoop_no_reset agent env _ _ _ _ _ _ hres
    split at h
    · split at h
      · simp only [Option.some.injEq] at h
        subst h
        refine ⟨?_, by show 2 ≤ lres.step; omega, (env.reset e0).2.1, (env.reset e0).2.2,
          action, ares, rest ++ [Event.agentLearn (some (lres.step - 1)) ds], ?_⟩
        · show ((Event.agentReset _ _ :: lres.log ++ _).filter Event.isReset).length = 1
          simp [List.filter_cons, List.filter_append, Event.isReset, hnores]
        · show Event.agentReset _ _ :: lres.log ++ _ = _
          rw [hlog]
          simp
      · simp only [Option.some.injEq] at h
        subst h
        refine ⟨?_, by show 2 ≤ lres.step; omega, (env.reset e0).2.1, (env.reset e0).2.2,
          action, ares, rest ++ [Event.agentLearn none ds], ?_⟩
        · show ((Event.agentReset _ _ :: lres.log ++ _).filter Event.isReset).length = 1
          simp [List.filter_cons, List.filter_append, Event.isReset, hnores]
        · show Event.agentReset _ _ :: lres.log ++ _ = _
          rw [hlog]
          simp
    · simp only [Option.some.injEq] at h
      subst h
      refine ⟨?_, by show 2 ≤ lres.step; omega, (env.reset e0).2.1, (env.reset e0).2.2,
        action, ares, rest, ?_⟩
      · show ((Event.agentReset _ _ :: lres.log).filter Event.isReset).length = 1
        simp [List.filter_cons, Event.isReset, hnores]
      · show Event.agentReset _ _ :: lres.log = _
        rw [hlog]

/-- C10: with `learn=False`, `episode_return` never calls `agent.learn`,
whatever the other flags are. -/
theorem episode_return_no_learn_when_learn_false {E A Obs ASp Act : Type}
    (agent : AgentI A Obs ASp Act) (env : EnvI E Obs ASp Act)
    (fuel : Nat) (e0 : E) (a0 : A) (exploit lae ds : Bool)
    (r : LoopResult E A Obs ASp Act)
    (h : episode_return agent env fuel e0 a0 false exploit lae ds = some r) :
    r.log.filter Event.isLearn = [] := by
  simp only [episode_return, Bool.false_and, Bool.false_eq_true, if_false] at h
  split at h
  · exact absurd h (by simp)
  · rename_i lres hres
    have hloop : lres.log.filter Event.isLearn = [] :=
      episodeLoop_no_learn agent env (by simp) fuel _ _ _ _ lres hres
    simp only [Option.some.injEq] at h
    subst h
    show (Event.agentReset _ _ :: lres.log).filter Event.isLearn = []
    simp [List.filter_cons, Event.isLearn, hloop]

/-- Witness for `episode_return_const_reward`: the concrete counter
environment with reward 2 and episode length 3 yields return 6. -/
theorem episode_return_const_reward_witness :
    (episode_return (cAgent 5) (cEnv 3 2) 3 0 () true true false false).map (fun x => x.g)
      = some (2 * ((3 : Nat) : Int)) :=
  episode_return_const_reward (cAgent 5) (cEnv 3 2) 3 0 () true true false false
    (fun e => e) 3 2 (by decide) rfl (fun _ _ => rfl) (fun _ _ => rfl)
    (fun _ _ => rfl) (by decide)

/-- Witness for `episode_return_learn_after_episode_batch`: a 3-step episode
with configured batch size 5 > 3 yields exactly one learn call, with
`batch_size = 3`. -/
theorem episode_return_learn_after_episode_batch_witness :
    ∃ r', episode_return (cAgent 5) (cEnv 3 2) 3 0 () true false true false = some r' ∧
      r'.g = 6 ∧ r'.step = 4 ∧
      r'.log.filter Event.isLearn = [Event.agentLearn (some 3) false] :=
  episode_return_learn_after_episode_batch (cAgent 5) (cEnv 3 2) 3 0 () false false _ rfl

/-- Witness for `episode_return_reset_once_cycle` on a concrete 3-step run. -/
theorem episode_return_reset_once_cycle_witness :
    ∃ r, episode_return (cAgent 5) (cEnv 3 2) 3 0 () false true false false = some r ∧
      ((r.log.filter Event.isReset).length = 1 ∧ 2 ≤ r.step ∧
        ∃ obs asp action res rest,
          r.log = Event.agentReset obs asp :: Event.agentAct true action ::
            Event.envStep action res :: Event.agentObserve res :: rest) :=
  ⟨_, rfl, episode_return_reset_once_cycle (cAgent 5) (cEnv 3 2) 3 0 () false true false false
    _ rfl⟩

/-- Witness for `episode_return_no_learn_when_learn_false` on a concrete
3-step run. -/
theorem episode_return_no_learn_when_learn_false_witness :
    ∃ r, episode_return (cAgent 5) (cEnv 3 2) 3 0 () false true false false = some r ∧
      r.log.filter Event.isLearn = [] :=
  ⟨_, rfl, episode_return_no_learn_when_learn_false (cAgent 5) (cEnv 3 2) 3 0 ()
    true false false _ rfl⟩

/-! ### Lemmas about the online learning loop -/

/-- Every `agent.act` event recorded by `episode_return` carries the `exploit`
flag it was called with. -/
lemma episode_return_act_exploit {E A Obs ASp Act : Type}
    (agent : AgentI A Obs ASp Act) (env : EnvI E Obs ASp Act)
    {fuel : Nat} {e0 : E} {a0 : A} {learn exploit lae ds : Bool}
    {r : LoopResult E A Obs ASp Act}
    (h : episode_return agent env fuel e0 a0 learn exploit lae ds = some r) :
    ∀ (b : Bool) (action : Act), Event.agentAct b action ∈ r.log → b = exploit := by
  simp only [episode_return] at h
  split at h
  · exact absurd h (by simp)
  · rename_i lres hres
    have hl := episodeLoop_act_exploit agent env _ _ _ _ _ _ hres
    split at h
    · split at h
      · simp only [Option.some.injEq] at h
        subst h
        intro b action hmem
        simp only [List.mem_cons, List.mem_append] at hmem
        rcases hmem with (h1 | h1) | h1 | h1
        · exact Event.noConfusion h1
        · exact hl b action h1
        · exact Event.noConfusion h1
        · exact absurd h1 (by simp)
      · simp only [Option.some.injEq] at h
        subst h
        intro b action hmem
        simp only [List.mem_cons, List.mem_append] at hmem
        rcases hmem with (h1 | h1) | h1 | h1
        · exact Event.noConfusion h1
        · exact hl b action h1
        · exact Event.noConfusion h1
        · exact absurd h1 (by simp)
    · simp only [Option.some.injEq] at h
      subst h
      intro b action hmem
      simp only [List.mem_cons] at hmem
      rcases hmem with h1 | h1
      · exact Event.noConfusion h1
      · exact hl b action h1

/-- A successful `online_learning` run carries out exactly the episodes of
`spec_episode_returns` (in order, with the same final collaborator states),
and its sink state is the fold of `process_return` over the episode returns
passed to it, one call per episode. -/
lemma online_learning_spec_lemma {E A S Obs ASp Act : Type}
    (agent : AgentI A Obs ASp Act) (env : EnvI E Obs ASp Act)
    (fuel : Nat) (lae ds : Bool) (pr : S → Int → S) :
    ∀ (n : Nat) (e : E) (a : A) (s : S) r,
      online_learning agent env fuel e a n lae pr s ds = some r →
      spec_episode_returns agent env fuel lae ds n e a = some (r.sinkArgs, r.env, r.agent) ∧
      r.sink = r.sinkArgs.foldl pr s ∧ r.sinkArgs.length = n := by
  intro n
  induction n with
  | zero =>
    intro e a s r h
    simp only [online_learning, Option.some.injEq] at h
    subst h
    simp [spec_episode_returns]
  | succ m ih =>
    intro e a s r h
    simp only [online_learning] at h
    split at h
    · exact absurd h (by simp)
    · rename_i er her
      split at h
      · exact absurd h (by simp)
      · rename_i rest hrest
        simp only [Option.some.injEq] at h
        subst h
        obtain ⟨hspec, hsink, hlen⟩ := ih _ _ _ _ hrest
        refine ⟨?_, ?_, ?_⟩
        · simp only [spec_episode_returns, her, hspec]
        · show rest.sink = (er.g :: rest.sinkArgs).foldl pr s
          simp [hsink]
        · show (er.g :: rest.sinkArgs).length = m + 1
          simp [hlen]

/-- Every `agent.act` event in the log of a successful `online_learning` run
carries `exploit = false`. -/
lemma online_learning_act_false {E A S Obs ASp Act : Type}
    (agent : AgentI A Obs ASp Act) (env : EnvI E Obs ASp Act)
    (fuel : Nat) (lae ds : Bool) (pr : S → Int → S) :
    ∀ (n : Nat) (e : E) (a : A) (s : S) r,
      online_learning agent env fuel e a n lae pr s ds = some r →
      ∀ (b : Bool) (action : Act), Event.agentAct b action ∈ r.log → b = false := by
  intro n
  induction n with
  | zero =>
    intro e a s r h
    simp only [online_learning, Option.some.injEq] at h
    subst h
    intro b action hmem
    exact absurd hmem (by simp)
  | succ m ih =>
    intro e a s r h
    simp only [online_learning] at h
    split at h
    · exact absurd h (by simp)
    · rename_i er her
      split at h
      · exact absurd h (by simp)
      · rename_i rest hrest
        simp only [Option.some.injEq] at h
        subst h
        intro b action hmem
        simp only [List.mem_append] at hmem
        rcases hmem with h1 | h1
        · exact episode_return_act_exploit agent env her b action h1
        · exact ih _ _ _ _ hrest b action h1

/-- Folding "append one element" from the empty list rebuilds the list. -/
lemma foldl_append_singleton :
    ∀ (l acc : List Int), l.foldl (fun acc g => acc ++ [g]) acc = acc ++ l := by
  intro l
  induction l with
  | nil => intro acc; simp
  | cons x xs ih => intro acc; simp [List.foldl_cons, ih]

/-- C4: each of the `number_of_episodes` episodes of `online_learning` is run
with `learn=True` and `exploit=False` plus the passthrough flags (the run
coincides with `spec_episode_returns`, and every `act` event in its log
carries `exploit = false`), and the sink callback is invoked exactly once per
episode, in order, with that episode's return. -/
theorem online_learning_episodes_and_sink {E A S Obs ASp Act : Type}
    (agent : AgentI A Obs ASp Act) (env : EnvI E Obs ASp Act)
    (fuel : Nat) (e : E) (a : A) (n : Nat) (lae : Bool) (pr : S → Int → S)
    (s : S) (ds : Bool) (r : OLResult E A S Obs ASp Act)
    (h : online_learning agent env fuel e a n lae pr s ds = some r) :
    spec_episode_returns agent env fuel lae ds n e a = some (r.sinkArgs, r.env, r.agent) ∧
      r.sinkArgs.length = n ∧ r.sink = r.sinkArgs.foldl pr s ∧
      ∀ (b : Bool) (action : Act), Event.agentAct b action ∈ r.log → b = false := by
  obtain ⟨hspec, hsink, hlen⟩ := online_learning_spec_lemma agent env fuel lae ds pr n e a s r h
  exact ⟨hspec, hlen, hsink, online_learning_act_false agent env fuel lae ds pr n e a s r h⟩

/-- C3: a successful `online_learning_returns` run returns a list of exactly
`number_of_episodes` elements, whose element `i` is the return of episode `i`
(the list agrees with `spec_episode_returns`). -/
theorem online_learning_returns_length {E A Obs ASp Act : Type}
    (agent : AgentI A Obs ASp Act) (env : EnvI E Obs ASp Act)
    (fuel : Nat) (e : E) (a : A) (n : Nat) (lae ds : Bool) (l : List Int)
    (h : online_learning_returns agent env fuel e a n lae ds = some l) :
    l.length = n ∧ ∃ e' a',
      spec_episode_returns agent env fuel lae ds n e a = some (l, e', a') := by
  simp only [online_learning_returns] at h
  split at h
  · exact absurd h (by simp)
  · rename_i r hr
    simp only [Option.some.injEq] at h
    subst h
    obtain ⟨hspec, hsink, hlen⟩ :=
      online_learning_spec_lemma agent env fuel lae ds _ n e a [] r hr
    have hs : r.sink = r.sinkArgs := by
      rw [hsink, foldl_append_singleton]
      simp
    rw [hs]
    exact ⟨hlen, r.env, r.agent, hspec⟩

/-- Witness for `online_learning_returns_length`: two 1-step episodes with
reward 2 produce the list `[2, 2]`. -/
theorem online_learning_returns_length_witness :
    ([2, 2] : List Int).length = 2 ∧ ∃ e' a',
      spec_episode_returns (cAgent 5) (cEnv 1 2) 1 false false 2 0 () = some ([2, 2], e', a') :=
  online_learning_returns_length (cAgent 5) (cEnv 1 2) 1 0 () 2 false false [2, 2] rfl

/-- Witness for `online_learning_episodes_and_sink` on one concrete episode
with a list-appending sink. -/
theorem online_learning_episodes_and_sink_witness :
    ∃ r, online_learning (cAgent 5) (cEnv 1 2) 1 0 () 1 false
        (fun acc g => acc ++ [g]) ([] : List Int) false = some r ∧
      (spec_episode_returns (cAgent 5) (cEnv 1 2) 1 false false 1 0 () =
          some (r.sinkArgs, r.env, r.agent) ∧
        r.sinkArgs.length = 1 ∧ r.sink = r.sinkArgs.foldl (fun acc g => acc ++ [g]) [] ∧
        ∀ (b : Bool) (action : Nat), Event.agentAct b action ∈ r.log → b = false) :=
  ⟨_, rfl, online_learning_episodes_and_sink (cAgent 5) (cEnv 1 2) 1 0 () 1 false
    (fun acc g => acc ++ [g]) [] false _ rfl⟩

/-! ### Lemmas about argmax and DeepExploration -/

/-- The value component of `argmaxAux` is the running maximum. -/
lemma argmaxAux_snd (xs : List Int) :
    ∀ (i : Nat) (best : Nat × Int), (argmaxAux xs i best).2 = xs.foldl max best.2 := by
  induction xs with
  | nil => intro i best; rfl
  | cons x xs ih =>
    intro i best
    simp only [argmaxAux, List.foldl_cons]
    by_cases h : best.2 < x
    · rw [if_pos h, ih]
      simp [max_eq_right (le_of_lt h)]
    · rw [if_neg h, ih]
      simp [max_eq_left (not_lt.mp h)]

/-- The index component of `argmaxAux` is either the initial best index or the
position (offset by `i`) of some list element, whose value is the returned
value. -/
lemma argmaxAux_fst (xs : List Int) :
    ∀ (i : Nat) (best : Nat × Int),
      argmaxAux xs i best = best ∨
      ∃ p, ∃ hp : p < xs.length, argmaxAux xs i best = (i + p, xs.get ⟨p, hp⟩) := by
  induction xs with
  | nil => intro i best; exact Or.inl rfl
  | cons x xs ih =>
    intro i best
    simp only [argmaxAux]
    by_cases h : best.2 < x
    · rw [if_pos h]
      rcases ih (i + 1) (i, x) with h1 | ⟨p, hp, h1⟩
      · right
        refine ⟨0, by simp, ?_⟩
        rw [h1]
        simp
      · right
        refine ⟨p + 1, by simp; omega, ?_⟩
        rw [h1]
        have hadd : i + 1 + p = i + (p + 1) := by omega
        rw [hadd]
        rfl
    · rw [if_neg h]
      rcases ih (i + 1) best with h1 | ⟨p, hp, h1⟩
      · exact Or.inl h1
      · right
        refine ⟨p + 1, by simp; omega, ?_⟩
        rw [h1]
        have hadd : i + 1 + p = i + (p + 1) := by omega
        rw [hadd]
        rfl

/-- The seed and every element of the list are bounded by the left fold of
`max` over the list. -/
lemma le_foldl_max (xs : List Int) :
    ∀ b : Int, b ≤ xs.foldl max b ∧ ∀ x ∈ xs, x ≤ xs.foldl max b := by
  induction xs with
  | nil => intro b; exact ⟨le_refl b, by simp⟩
  | cons y ys ih =>
    intro b
    simp only [List.foldl_cons]
    constructor
    · exact le_trans (le_max_left b y) (ih (max b y)).1
    · intro x hx
      rcases List.mem_cons.mp hx with h1 | h1
      · subst h1
        exact le_trans (le_max_right b x) (ih (max b x)).1
      · exact (ih (max b y)).2 x h1

/-- Every element of a cons list is bounded by the fold of `max` over the
tail seeded with the head. -/
lemma getD_le_foldl_max (x : Int) (xs : List Int) :
    ∀ i, i < (x :: xs).length → (x :: xs).getD i 0 ≤ xs.foldl max x := by
  intro i hi
  match i with
  | 0 =>
    rw [List.getD_cons_zero]
    exact (le_foldl_max xs x).1
  | j + 1 =>
    rw [List.getD_cons_succ]
    have hj : j < xs.length := by simpa using hi
    have hmem : xs.getD j 0 ∈ xs := by
      rw [List.getD_eq_getElem xs 0 hj]
      exact List.getElem_mem hj
    exact (le_foldl_max xs x).2 _ hmem

/-- `argmaxIdx` on a cons list returns a valid index whose value is the
maximum of the list. -/
lemma argmaxIdx_cons_getD (x : Int) (xs : List Int) :
    argmaxIdx (x :: xs) < (x :: xs).length ∧
      (x :: xs).getD (argmaxIdx (x :: xs)) 0 = (argmaxAux xs 1 (0, x)).2 := by
  rcases argmaxAux_fst xs 1 (0, x) with h1 | ⟨p, hp, h1⟩
  · constructor
    · simp [argmaxIdx, h1]
    · simp [argmaxIdx, h1]
  · constructor
    · simp only [argmaxIdx, h1, List.length_cons]
      omega
    · simp only [argmaxIdx, h1]
      have hadd : 1 + p = p + 1 := by omega
      rw [hadd, List.getD_cons_succ, List.getD_eq_getElem xs 0 hp, List.get_eq_getElem]

/-- `torch.argmax` on a nonempty list: the returned index is in range and its
value bounds every element of the list. -/
lemma argmaxIdx_spec (l : List Int) (hl : l ≠ []) :
    argmaxIdx l < l.length ∧
      ∀ i, i < l.length → l.getD i 0 ≤ l.getD (argmaxIdx l) 0 := by
  match l with
  | [] => exact absurd rfl hl
  | x :: xs =>
    obtain ⟨hlt, hval⟩ := argmaxIdx_cons_getD x xs
    refine ⟨hlt, ?_⟩
    intro i hi
    rw [hval, argmaxAux_snd]
    exact getD_le_foldl_max x xs i hi

/-- Zipping `replicate` of the right length with a list pairs the constant
with each element. -/
lemma zip_replicate_map {α β : Type} (s : α) :
    ∀ (l : List β), (List.replicate l.length s).zip l = l.map (fun b => (s, b)) := by
  intro l
  induction l with
  | nil => rfl
  | cons y ys ih =>
    simp only [List.length_cons, List.replicate_succ, List.zip_cons_cons, List.map_cons]
    rw [ih]

/-- The Q-values computed inside `DeepExploration.act` are exactly the active
member's Q-values at the given state, one per action index in order. -/
lemma act_q_values {S : Type} (m : DeepExploration S) (s : S) (n : Nat) :
    (m.q_ensemble_network.get_q_values (List.replicate n s) (List.range n) true).2
      = (List.range n).map
          (fun i => m.q_ensemble_network.q m.q_ensemble_network.epistemic_index s i) := by
  have h : (List.replicate n s).zip (List.range n)
      = (List.range n).map (fun i => (s, i)) := by
    have h0 := zip_replicate_map s (List.range n)
    rwa [List.length_range] at h0
  simp [EnsembleQValueNetwork.get_q_values, h, List.map_map, Function.comp]

/-- C5: for every state and every nonempty discrete action space — tied
Q-value profiles included — `DeepExploration.act` returns an in-range action
index achieving the maximum Q-value estimate under the currently selected
ensemble member; in particular, when some action `j` has the strictly highest
value among the `n` actions, `act` returns `j`. -/
theorem deep_exploration_act_argmax {S : Type} (m : DeepExploration S) (s : S) (n : Nat)
    (hn : 0 < n) :
    (m.act s n).2 < n ∧
      (∀ i, i < n →
        m.q_ensemble_network.q m.q_ensemble_network.epistemic_index s i ≤
          m.q_ensemble_network.q m.q_ensemble_network.epistemic_index s (m.act s n).2) ∧
      ∀ j, j < n →
        (∀ i, i < n → i ≠ j →
          m.q_ensemble_network.q m.q_ensemble_network.epistemic_index s i <
            m.q_ensemble_network.q m.q_ensemble_network.epistemic_index s j) →
        (m.act s n).2 = j := by
  have hact : (m.act s n).2 = argmaxIdx ((List.range n).map
      (fun i => m.q_ensemble_network.q m.q_ensemble_network.epistemic_index s i)) := by
    show argmaxIdx (m.q_ensemble_network.get_q_values
      (List.replicate n s) (List.range n) true).2 = _
    rw [act_q_values]
  set f : Nat → Int :=
    fun i => m.q_ensemble_network.q m.q_ensemble_network.epistemic_index s i with hf
  have hne : (List.range n).map f ≠ [] := by
    simp only [ne_eq, List.map_eq_nil_iff, List.range_eq_nil]
    omega
  obtain ⟨hlt0, hle0⟩ := argmaxIdx_spec ((List.range n).map f) hne
  have hlen : ((List.range n).map f).length = n := by simp
  have hgetD : ∀ i, i < n → ((List.range n).map f).getD i 0 = f i := by
    intro i hi
    have hi' : i < ((List.range n).map f).length := by omega
    rw [List.getD_eq_getElem _ 0 hi']
    simp
  have hltn : (m.act s n).2 < n := by
    rw [hact]
    omega
  have hmax : ∀ i, i < n → f i ≤ f ((m.act s n).2) := by
    intro i hi
    have h1 := hle0 i (by omega)
    rw [hgetD i hi] at h1
    rw [hact]
    rw [hgetD _ (by rw [← hact]; exact hltn)] at h1
    exact h1
  refine ⟨hltn, hmax, ?_⟩
  intro j hj hstrict
  by_contra hne'
  exact absurd (hmax j hj) (not_le.mpr (hstrict _ hltn hne'))

/-- Witness for `deep_exploration_act_argmax`: with active-member values
`[1, 0, 5, 2]` over a 4-action space, `act` returns an in-range maximizing
index, and (since index 2 is strictly highest) that index is 2. -/
theorem deep_exploration_act_argmax_witness :
    (DeepExploration.act ⟨cEnsemble [1, 0, 5, 2]⟩ () 4).2 < 4 ∧
      (∀ i, i < 4 →
        (cEnsemble [1, 0, 5, 2]).q (cEnsemble [1, 0, 5, 2]).epistemic_index () i ≤
          (cEnsemble [1, 0, 5, 2]).q (cEnsemble [1, 0, 5, 2]).epistemic_index ()
            (DeepExploration.act ⟨cEnsemble [1, 0, 5, 2]⟩ () 4).2) ∧
      ∀ j, j < 4 →
        (∀ i, i < 4 → i ≠ j →
          (cEnsemble [1, 0, 5, 2]).q (cEnsemble [1, 0, 5, 2]).epistemic_index () i <
            (cEnsemble [1, 0, 5, 2]).q (cEnsemble [1, 0, 5, 2]).epistemic_index () j) →
        (DeepExploration.act ⟨cEnsemble [1, 0, 5, 2]⟩ () 4).2 = j :=
  deep_exploration_act_argmax ⟨cEnsemble [1, 0, 5, 2]⟩ () 4 (by decide)

/-- C9: `DeepExploration.act` leaves the module's state — in particular the
epistemic index — completely unchanged (the embedding is a pure function and
`get_q_values` is queried with `persistent=True`), and `reset` changes the
state exactly by resampling the epistemic index of the ensemble network. -/
theorem deep_exploration_act_pure {S : Type} (m : DeepExploration S) (s : S) (n : Nat) :
    (m.act s n).1 = m ∧
      (m.act s n).1.q_ensemble_network.epistemic_index
        = m.q_ensemble_network.epistemic_index ∧
      m.reset = ⟨m.q_ensemble_network.resample_epistemic_index⟩ :=
  ⟨rfl, rfl, rfl⟩

/-! ### The plotting entry point -/

/-- C7 (amended): with a null (`None`) filename, `online_learning_to_png_graph`
performs no rendering call and attempts no save: the plotting-effect log is
empty.  (An empty-string filename is not `None` and does trigger rendering;
see the counterexample.) -/
theorem online_learning_to_png_graph_none_filename {E A Obs ASp Act : Type}
    (agent : AgentI A Obs ASp Act) (env : EnvI E Obs ASp Act)
    (fuel : Nat) (e : E) (a : A) (agentStr envStr : String)
    (fontsize_for : String → Nat) (savefig_ok : String → Bool)
    (n : Nat) (lae ds : Bool) :
    online_learning_to_png_graph agent env fuel e a agentStr envStr fontsize_for
        savefig_ok none n lae ds
      = (online_learning_returns agent env fuel e a n lae ds).map
          (fun _ => ([], true)) := by
  cases hret : online_learning_returns agent env fuel e a n lae ds with
  | none => simp [online_learning_to_png_graph, hret]
  | some returns => simp [online_learning_to_png_graph, hret]

/-- C7 counterexample: with the empty-string filename — which the claim groups
with null — the code still performs every rendering call and attempts the
save, because the source only checks `filename is not None`. -/
theorem online_learning_to_png_graph_empty_filename_renders :
    online_learning_to_png_graph (cAgent 5) (cEnv 1 2) 1 0 () "agent" "env"
        (fun _ => 10) (fun _ => true) (some "") 0 false false
      = some ([PlotEffect.plot [], PlotEffect.title "agent on env" 10,
          PlotEffect.xlabel "Episode", PlotEffect.ylabel "Return",
          PlotEffect.savefig "", PlotEffect.close], true) := by
  rfl

/-- C8 (amended): on the successful-save path the figure resource is released:
the last plotting call is `plt.close()`.  (On a failing save the exception
propagates and `close` is never reached; see the counterexample.) -/
theorem online_learning_to_png_graph_close_on_success {E A Obs ASp Act : Type}
    (agent : AgentI A Obs ASp Act) (env : EnvI E Obs ASp Act)
    (fuel : Nat) (e : E) (a : A) (agentStr envStr : String)
    (fontsize_for : String → Nat) (savefig_ok : String → Bool)
    (f : String) (n : Nat) (lae ds : Bool) (effs : List PlotEffect) (ok : Bool)
    (h : online_learning_to_png_graph agent env fuel e a agentStr envStr fontsize_for
        savefig_ok (some f) n lae ds = some (effs, ok))
    (hok : savefig_ok f = true) :
    effs.getLast? = some PlotEffect.close ∧ ok = true := by
  cases hret : online_learning_returns agent env fuel e a n lae ds with
  | none =>
    rw [online_learning_to_png_graph, hret] at h
    exact absurd h (by simp)
  | some returns =>
    rw [online_learning_to_png_graph, hret] at h
    simp only [hok, if_true, Option.some.injEq, Prod.mk.injEq] at h
    obtain ⟨heffs, hok2⟩ := h
    subst heffs
    exact ⟨by simp, hok2.symm⟩

/-- Witness for `online_learning_to_png_graph_close_on_success` on a concrete
run whose save succeeds. -/
theorem online_learning_to_png_graph_close_on_success_witness :
    ([PlotEffect.plot [2], PlotEffect.title "agent on env" 10,
        PlotEffect.xlabel "Episode", PlotEffect.ylabel "Return",
        PlotEffect.savefig "returns.png", PlotEffect.close].getLast?
      = some PlotEffect.close) ∧ true = true :=
  online_learning_to_png_graph_close_on_success (cAgent 5) (cEnv 1 2) 1 0 ()
    "agent" "env" (fun _ => 10) (fun _ => true) "returns.png" 1 false false
    _ _ rfl rfl

/-- C8 counterexample: when the save fails (`savefig_ok` is false for the
filename), the exception propagates out of `plt.savefig` and `plt.close()` is
never executed: `close` is absent from the effect log, so the figure resource
is not released on that path. -/
theorem online_learning_to_png_graph_no_close_on_failed_save :
    online_learning_to_png_graph (cAgent 5) (cEnv 1 2) 1 0 () "agent" "env"
        (fun _ => 10) (fun _ => false) (some "returns.png") 0 false false
      = some ([PlotEffect.plot [], PlotEffect.title "agent on env" 10,
          PlotEffect.xlabel "Episode", PlotEffect.ylabel "Return",
          PlotEffect.savefig "returns.png"], false) ∧
      PlotEffect.close ∉
        [PlotEffect.plot [], PlotEffect.title "agent on env" 10,
          PlotEffect.xlabel "Episode", PlotEffect.ylabel "Return",
          PlotEffect.savefig "returns.png"] :=
  ⟨rfl, by simp⟩
